import Mathlib

/-!
Shallow embedding of the vortex columnar array library (crates enc, enc-alp,
enc-roaring, vortex-array, vortex-roaring, vortex-serde) used to settle the
frozen specification claims.  Definitions are translated from the Rust
source; functions of this repository that are not present under src/ are
modelled from the spec and marked as such in their doc comments.
-/

namespace Vortex

/-- Stable encoding identifier (enc::array::EncodingId / vortex EncodingId):
a wrapper around a stable string id. -/
structure EncodingId where
  name : String
deriving DecidableEq, Repr

/-- The ALP encoding id constant from src/enc-alp/src/alp.rs:
ALP_ENCODING = EncodingId::new("enc.alp"). -/
def ALP_ENCODING : EncodingId := ⟨"enc.alp"⟩

/-- RoaringBoolEncoding::ID from src/vortex-roaring/src/boolean/mod.rs:
EncodingId::new("roaring.bool"). -/
def RoaringBoolEncodingID : EncodingId := ⟨"roaring.bool"⟩

/-- ROARING_BOOL_ENCODING from src/enc-roaring/src/boolean/mod.rs:
EncodingId::new("roaring.bool"). -/
def ROARING_BOOL_ENCODING : EncodingId := ⟨"roaring.bool"⟩

/-- The identifier the spec claims for ALP, for comparison. -/
def specAlpId : EncodingId := ⟨"vortex.alp"⟩

/-- An encoding singleton, reduced to the data the claims consult: its id. -/
structure Encoding where
  id : EncodingId
deriving DecidableEq, Repr

/-- The ALPEncoding singleton of src/enc-alp/src/alp.rs; its id() returns
ALP_ENCODING. -/
def ALPEncoding : Encoding := ⟨ALP_ENCODING⟩

/-- The RoaringBoolEncoding singleton of src/vortex-roaring/src/boolean/mod.rs;
its id() returns RoaringBoolEncoding::ID. -/
def RoaringBoolEncodingSingleton : Encoding := ⟨RoaringBoolEncodingID⟩

/-- Nullability axis of the enc DType (enc::dtype::Nullability). -/
inductive Nullability
  | nonNullable
  | nullable
deriving DecidableEq, Repr

/-- Integer widths of the enc DType (enc::dtype::IntWidth). -/
inductive IntWidth
  | w8
  | w16
  | w32
  | w64
deriving DecidableEq, Repr

/-- Float widths of the enc DType (enc::dtype::FloatWidth). -/
inductive FloatWidth
  | w16
  | w32
  | w64
deriving DecidableEq, Repr

/-- Signedness of integer DTypes (enc::dtype::Signedness). -/
inductive Signedness
  | signed
  | unsigned
deriving DecidableEq, Repr

/-- Logical data types of the enc crate (enc::dtype::DType), restricted to
the scalar constructors the claims exercise; Struct and List are omitted as
no claim constructs them. -/
inductive DType
  | null
  | bool (n : Nullability)
  | int (w : IntWidth) (s : Signedness) (n : Nullability)
  | float (w : FloatWidth) (n : Nullability)
  | utf8 (n : Nullability)
  | binary (n : Nullability)
deriving DecidableEq, Repr

/-- Error kinds of the enc crate (enc::error::EncError) used by the claims. -/
inductive EncError
  | invalidDType (d : DType)
  | invalidEncoding (id : EncodingId)
  | outOfBounds
deriving DecidableEq, Repr

/-- ALP exponent pair (codecz::alp::ALPExponents): e and f are u8 values. -/
structure ALPExponents where
  e : Nat
  f : Nat
deriving DecidableEq, Repr

/-- A child array reference, reduced to the data ALPArray::try_new consults:
its logical DType. -/
structure EncArrayRef where
  dtype : DType
deriving DecidableEq, Repr

/-- The ALPArray struct of src/enc-alp/src/alp.rs: an encoded integer child,
an exponent pair, an optional patches child, and the computed DType. -/
structure ALPArray where
  encoded : EncArrayRef
  exponents : ALPExponents
  patches : Option EncArrayRef
  dtype : DType
deriving DecidableEq, Repr

/-- ALPArray::try_new from src/enc-alp/src/alp.rs lines 29-49: computes the
DType from the encoded child (Int 32 becomes Float 32, Int 64 becomes
Float 64, keeping the nullability) and rejects any other child DType with
InvalidDType. -/
def ALPArray.tryNew (encoded : EncArrayRef) (exponents : ALPExponents)
    (patches : Option EncArrayRef) : Except EncError ALPArray :=
  match encoded.dtype with
  | DType.int w _ n =>
    match w with
    | IntWidth.w32 => .ok ⟨encoded, exponents, patches, DType.float FloatWidth.w32 n⟩
    | IntWidth.w64 => .ok ⟨encoded, exponents, patches, DType.float FloatWidth.w64 n⟩
    | _ => .error (EncError.invalidDType encoded.dtype)
  | d => .error (EncError.invalidDType d)

/-- Array::encoding for ALPArray (src/enc-alp/src/alp.rs lines 124-127):
always the ALPEncoding singleton. -/
def ALPArray.encoding (_ : ALPArray) : Encoding := ALPEncoding

/-- A concrete ALPArray over an Int 32 encoded child, as try_new builds it. -/
def alpSample : ALPArray :=
  ⟨⟨DType.int IntWidth.w32 Signedness.signed Nullability.nonNullable⟩, ⟨1, 0⟩, none,
    DType.float FloatWidth.w32 Nullability.nonNullable⟩

/-- The croaring Bitmap (an external dependency) modelled as the finite set
of its set-bit positions. -/
abbrev Bitmap := Finset ℕ

/-- Bitmap::from_range(a..b): the set of positions in the half-open range. -/
def Bitmap.fromRange (a b : ℕ) : Bitmap := Finset.Ico a b

/-- Bitmap::and: set intersection. -/
def Bitmap.andB (x y : Bitmap) : Bitmap := x ∩ y

/-- Bitmap::add_offset with an integer offset: shift every position by the
offset, dropping positions that fall outside the value domain. -/
def Bitmap.addOffset (x : Bitmap) (off : ℤ) : Bitmap :=
  (x.filter (fun p : ℕ => 0 ≤ (p : ℤ) + off)).image (fun p : ℕ => ((p : ℤ) + off).toNat)

/-- The RoaringBoolArray struct of src/enc-roaring/src/boolean/mod.rs and
src/vortex-roaring/src/boolean/mod.rs: a bitmap of set positions and a
logical length. -/
structure RoaringBoolArray where
  bitmap : Bitmap
  length : ℕ
deriving DecidableEq

/-- Array::encoding for RoaringBoolArray: always the RoaringBoolEncoding
singleton. -/
def RoaringBoolArray.encoding (_ : RoaringBoolArray) : Encoding :=
  RoaringBoolEncodingSingleton

/-- Modelled from the spec: enc::array::check_slice_bounds, absent from
src/ — slice(a,b) requires 0 ≤ a ≤ b ≤ len and yields OutOfBounds
otherwise. -/
def checkSliceBounds (len start stop : ℕ) : Except EncError Unit :=
  if start ≤ stop ∧ stop ≤ len then .ok () else .error EncError.outOfBounds

/-- Modelled from the spec: enc::array::check_index_bounds, absent from
src/ — scalar_at(i) requires i < len and yields OutOfBounds otherwise. -/
def checkIndexBounds (len i : ℕ) : Except EncError Unit :=
  if i < len then .ok () else .error EncError.outOfBounds

/-- RoaringBoolArray::slice from src/enc-roaring/src/boolean/mod.rs lines
99-111 (identical in src/vortex-roaring/src/boolean/mod.rs lines 91-103):
check bounds, intersect the bitmap with the range, shift by the negated
start, and record length stop - start. -/
def RoaringBoolArray.slice (r : RoaringBoolArray) (start stop : ℕ) :
    Except EncError RoaringBoolArray :=
  match checkSliceBounds r.length start stop with
  | .error e => .error e
  | .ok _ =>
    let sliceBitmap := Bitmap.fromRange start stop
    let bitmap := (Bitmap.andB r.bitmap sliceBitmap).addOffset (-(start : ℤ))
    .ok ⟨bitmap, stop - start⟩

/-- RoaringBoolArray::scalar_at from src/enc-roaring/src/boolean/mod.rs lines
85-93: check bounds, then return whether the bitmap contains the index. -/
def RoaringBoolArray.scalarAt (r : RoaringBoolArray) (i : ℕ) :
    Except EncError Bool :=
  match checkIndexBounds r.length i with
  | .error e => .error e
  | .ok _ => if i ∈ r.bitmap then .ok true else .ok false

/-- Modelled from the spec: enc_roaring::boolean::compress::roaring_encode,
absent from src/ — iterate the set positions of the canonical bool array,
insert them into the bitmap, and record the length. -/
def roaringEncode (bools : List Bool) : RoaringBoolArray :=
  ⟨(Finset.range bools.length).filter (fun p => bools.getD p false = true),
    bools.length⟩

/-- Modelled from the spec: codecz::alp encode of one value with exponents
(e, f) — round(value * 10^e * 10^-f); floats are modelled as rationals. -/
def alpEncodeValue (ex : ALPExponents) (v : ℚ) : ℤ :=
  round (v * 10 ^ ex.e / 10 ^ ex.f)

/-- Modelled from the spec: codecz::alp decode of one value — value =
encoded * 10^-e * 10^f. -/
def alpDecodeValue (ex : ALPExponents) (i : ℤ) : ℚ :=
  (i : ℚ) / 10 ^ ex.e * 10 ^ ex.f

/-- Modelled from the spec: a value is an exception when its round-trip
differs from the input or its integer form overflows the target width w
(32 bits for f32, 64 bits for f64). -/
def alpIsException (w : ℕ) (ex : ALPExponents) (v : ℚ) : Bool :=
  decide (alpDecodeValue ex (alpEncodeValue ex v) ≠ v) ||
    decide (alpEncodeValue ex v < -(2 ^ (w - 1))) ||
    decide ((2 : ℤ) ^ (w - 1) ≤ alpEncodeValue ex v)

/-- The result record of codecz::alp::encode / encode_with (codecz is not
under src/): encoded values, the exponents used, the exception positions
and their count. -/
structure ALPEncoded where
  values : List ℤ
  exponents : ALPExponents
  exceptionsIdx : List ℕ
  numExceptions : ℕ
deriving DecidableEq, Repr

/-- Modelled from the spec: codecz::alp::encode_with, absent from src/ —
apply the exponents to every value; an exception position keeps a filler
in the dense output (the decoder overlays patches there) and is recorded
in exceptions_idx.  The search path codecz::alp::encode picks some
exponent pair and then behaves exactly like encode_with, so the claims
quantify over the pair. -/
def alpEncodeWith (w : ℕ) (ex : ALPExponents) (vs : List ℚ) : ALPEncoded :=
  ⟨vs.map (fun v => if alpIsException w ex v then 0 else alpEncodeValue ex v),
    ex,
    (List.range vs.length).filter (fun i => alpIsException w ex (vs.getD i 0)),
    ((List.range vs.length).filter (fun i => alpIsException w ex (vs.getD i 0))).length⟩

/-- Modelled from the spec: codecz::utils::into_u32_vec, absent from src/ —
copy the first num_exceptions recorded positions into a u32 vector. -/
def intoU32Vec (idx : List ℕ) (n : ℕ) : List ℕ := idx.take n

/-- Modelled from the spec: codecz::utils::gather_patches, absent from
src/ — read the original float values at the patch positions (in the Rust
code the dense encoded buffer bit-aliases the original value at exception
slots and is re-read there as floats). -/
def gatherPatches (vs : List ℚ) (idx : List ℕ) : List ℚ :=
  idx.map (fun i => vs.getD i 0)

/-- The SparseArray child built for ALP patches, reduced to the data the
claim consults: a u32 index child, a float value child and the logical
length. -/
structure SparseArray where
  indices : List ℕ
  values : List ℚ
  len : ℕ
deriving DecidableEq, Repr

/-- The (encoded, exponents, patches) tuple returned by
alp_encode_primitive in src/enc-alp/src/compress.rs. -/
structure ALPPrimParts where
  encoded : List ℤ
  exponents : ALPExponents
  patches : Option SparseArray
deriving DecidableEq, Repr

/-- alp_encode_primitive from src/enc-alp/src/compress.rs lines 93-132:
run the codecz encoder, then build the patches child — None when
num_exceptions is zero, otherwise a SparseArray of the u32 exception
positions and the gathered original values.  The validity child is passed
through unchanged by the source and is not modelled. -/
def alpEncodePrimitive (w : ℕ) (ex : ALPExponents) (vs : List ℚ) : ALPPrimParts :=
  let r := alpEncodeWith w ex vs
  let patches : Option SparseArray :=
    if r.numExceptions = 0 then none
    else
      let patchIndices := intoU32Vec r.exceptionsIdx r.numExceptions
      let patchValues := gatherPatches vs patchIndices
      some ⟨patchIndices, patchValues, vs.length⟩
  ⟨r.values, r.exponents, patches⟩

/-- PTypes of the vortex-dtype crate (vortex_dtype::PType). -/
inductive PType
  | u8 | u16 | u32 | u64
  | i8 | i16 | i32 | i64
  | f16 | f32 | f64
deriving DecidableEq, Repr

/-- PType::is_int: every primitive type that is not a float. -/
def PType.isInt : PType → Bool
  | .f16 => false
  | .f32 => false
  | .f64 => false
  | _ => true

/-- Logical data types of the vortex-dtype crate (vortex_dtype::DType),
restricted to the constructors the take kernel consults. -/
inductive VDType
  | null
  | bool (n : Nullability)
  | primitive (p : PType) (n : Nullability)
  | utf8 (n : Nullability)
  | binary (n : Nullability)
deriving DecidableEq, Repr

/-- DType::is_int for vortex DTypes: a primitive with an integer ptype. -/
def VDType.isInt : VDType → Bool
  | .primitive p _ => p.isInt
  | _ => false

/-- DType::is_nullable for vortex DTypes: Null is nullable, every other
constructor carries its nullability. -/
def VDType.isNullable : VDType → Bool
  | .null => true
  | .bool n => n = Nullability.nullable
  | .primitive _ n => n = Nullability.nullable
  | .utf8 n => n = Nullability.nullable
  | .binary n => n = Nullability.nullable

/-- Error kinds of vortex-error used by the take kernel. -/
inductive VortexError
  | invalidIndicesDType
  | notImplementedTake (id : EncodingId)
  | outOfMemory
deriving DecidableEq, Repr

/-- The indices argument of the take kernel: its DType plus the payload the
encoding-specific implementations consume. -/
structure IndicesArray (ι : Type) where
  dtype : VDType
  data : ι
deriving Repr

/-- The receiver of the take kernel, reduced to what the dispatcher in
src/vortex-array/src/compute/take.rs consults: its encoding id, the
optional encoding-specific TakeFn, and the canonicalization result
carrying the optional TakeFn of the canonical encoding. -/
structure DynArray (ι ρ : Type) where
  encodingId : EncodingId
  takeFn : Option (ι → Except VortexError ρ)
  intoCanonical : Except VortexError (Option (ι → Except VortexError ρ))

/-- The take kernel from src/vortex-array/src/compute/take.rs lines 10-34:
reject indices that are not non-nullable integers, then dispatch to the
TakeFn of the receiver encoding; when absent, canonicalize and retry, and
produce NotImplemented only when the canonical form also lacks TakeFn. -/
def take {ι ρ : Type} (array : DynArray ι ρ) (indices : IndicesArray ι) :
    Except VortexError ρ :=
  if ¬ indices.dtype.isInt = true ∨ indices.dtype.isNullable = true then
    .error VortexError.invalidIndicesDType
  else
    match array.takeFn with
    | some t => t indices.data
    | none =>
      match array.intoCanonical with
      | .error e => .error e
      | .ok none => .error (VortexError.notImplementedTake array.encodingId)
      | .ok (some t) => t indices.data

/-- Modelled from the spec: crate::file::file_writer::MAGIC_BYTES, absent
from src/ — the 4 ASCII bytes of the file magic "VTXF". -/
def MAGIC_BYTES : List ℕ := [86, 84, 88, 70]

/-- VortexBatchReaderBuilder::FOOTER_TRAILER_SIZE from
src/vortex-serde/src/file/reader/mod.rs: the fixed 20-byte trailer. -/
def FOOTER_TRAILER_SIZE : ℕ := 20

/-- VortexBatchReaderBuilder::FOOTER_READ_SIZE from
src/vortex-serde/src/file/reader/mod.rs: 8 MiB. -/
def FOOTER_READ_SIZE : ℕ := 8 * 1024 * 1024

/-- Little-endian u64 decoding of a byte list (u64::from_le_bytes). -/
def u64FromLEBytes (bs : List ℕ) : ℕ :=
  bs.foldr (fun b acc => b + 256 * acc) 0

/-- Byte range [a, b) of a byte list, mirroring Rust slice indexing
buf[a..b]. -/
def listSlice (l : List ℕ) (a b : ℕ) : List ℕ := (l.take b).drop a

/-- Error kinds of vortex-serde used by the reader claims; the two
constructors model the two vortex_bail! malformed-file messages of
read_footer. -/
inductive SerdeError
  | malformedFileLength
  | malformedMagic
deriving DecidableEq, Repr

/-- The Footer record returned by read_footer, from
src/vortex-serde/src/file/reader/mod.rs lines 152-157. -/
structure FooterInfo where
  schemaOffset : ℕ
  footerOffset : ℕ
  leftovers : List ℕ
  leftoversOffset : ℕ
deriving DecidableEq, Repr

/-- VortexBatchReaderBuilder::read_footer from
src/vortex-serde/src/file/reader/mod.rs lines 116-158: bail when the file
is shorter than the 20-byte trailer, read min(8 MiB, length) bytes from
the end, check the last 4 bytes against the magic, then decode the
little-endian u64 footer and schema offsets from the 16 bytes before the
magic.  The file is modelled as its byte list; the read_at_into call is
the suffix extraction. -/
def readFooter (file : List ℕ) : Except SerdeError FooterInfo :=
  let fileLength := file.length
  if fileLength < FOOTER_TRAILER_SIZE then .error SerdeError.malformedFileLength
  else
    let readSize := min FOOTER_READ_SIZE fileLength
    let readOffset := fileLength - readSize
    let buf := file.drop readOffset
    let magicBytesLoc := readSize - MAGIC_BYTES.length
    let magicNumber := buf.drop magicBytesLoc
    if magicNumber ≠ MAGIC_BYTES then .error SerdeError.malformedMagic
    else
      let footerOffset := u64FromLEBytes (listSlice buf (magicBytesLoc - 8) magicBytesLoc)
      let schemaOffset := u64FromLEBytes (listSlice buf (magicBytesLoc - 16) (magicBytesLoc - 8))
      .ok ⟨schemaOffset, footerOffset, buf, readOffset⟩

/-- VortexBatchReaderBuilder::build from
src/vortex-serde/src/file/reader/mod.rs lines 78-105: read the footer
first and propagate its error; the remaining construction (layout and
dtype checks, stream assembly) is abstracted as a continuation. -/
def buildStream {σ : Type} (file : List ℕ)
    (rest : FooterInfo → Except SerdeError σ) : Except SerdeError σ :=
  (readFooter file).bind rest

/-- Modelled from the spec: the search_sorted compute kernel with side
Left, absent from src/ — for an array whose is_sorted stat holds it
returns the insertion point, the number of elements strictly below the
probe; SearchResult::to_zero_offset_index returns that index for both the
Found and NotFound cases. -/
def searchSortedLeft (l : List ℕ) (v : ℕ) : ℕ :=
  l.countP (fun x => decide (x < v))

/-- Modelled from the spec: the slice compute kernel on a primitive
array, absent from src/ — the elements at positions [a, b). -/
def sliceList (l : List ℕ) (a b : ℕ) : List ℕ := (l.take b).drop a

/-- Modelled from the spec: the take compute kernel on a decoded batch,
absent from src/ — a straight gather that fails on any out-of-bounds
index. -/
def takeRows {ρ : Type} (rows : List ρ) : List ℕ → Option (List ρ)
  | [] => some []
  | i :: is =>
    match rows.get? i with
    | none => none
    | some r => (takeRows rows is).map (fun rs => r :: rs)

/-- VortexBatchStream::take_batch from
src/vortex-serde/src/file/reader/mod.rs lines 181-198: locate the slice of
the take indices that lands in the current batch with two Left
search_sorted probes, shift it by the batch offset with subtract_scalar,
and gather from the batch. -/
def takeBatch {ρ : Type} (indices : List ℕ) (currentOffset : ℕ)
    (batch : List ρ) : Option (List ρ) :=
  let left := searchSortedLeft indices currentOffset
  let right := searchSortedLeft indices (currentOffset + batch.length)
  let indicesForBatch := sliceList indices left right
  let shifted := indicesForBatch.map (fun i => i - currentOffset)
  takeRows batch shifted

/-- Modelled from the spec: the filter compute kernel, absent from src/ —
keep the rows whose mask entry is true. -/
def filterRows {ρ : Type} : List ρ → List Bool → List ρ
  | [], _ => []
  | _, [] => []
  | r :: rs, b :: bs => if b then r :: filterRows rs bs else filterRows rs bs

/-- StructArray::project(indices), absent from src/ — pick the listed
fields of a row in order. -/
def projectRow {α : Type} [Inhabited α] (p : List ℕ) (r : List α) : List α :=
  p.map (fun i => r.getD i default)

/-- Optional projection applied to a row, as poll_next does when a
projection was configured. -/
def applyProj {α : Type} [Inhabited α] (proj : Option (List ℕ)) (r : List α) :
    List α :=
  match proj with
  | some p => projectRow p r
  | none => r

/-- The pushdown pipeline applied to one decoded struct batch by
VortexBatchStream::poll_next, src/vortex-serde/src/file/reader/mod.rs
lines 318-345: take when take indices were supplied, then the row filter
built by AND-folding every predicate result left-to-right onto an
all-true constant array, then projection by column indices.  A batch is a
list of rows; a row is the list of its column values. -/
def pollEmit {α : Type} [Inhabited α] (takeIndices : Option (List ℕ))
    (currentOffset : ℕ) (filters : List (List (List α) → List Bool))
    (projection : Option (List ℕ)) (s : List (List α)) :
    Option (List (List α)) :=
  let taken : Option (List (List α)) :=
    match takeIndices with
    | some idx => takeBatch idx currentOffset s
    | none => some s
  match taken with
  | none => none
  | some s1 =>
    let mask := filters.foldl
      (fun acc f => acc.zipWith (fun x y => x && y) (f s1))
      (List.replicate s1.length true)
    let s2 := filterRows s1 mask
    some (s2.map (applyProj projection))

/-- The chunk loop of VortexBatchStream: decode each chunk batch in order,
apply the pushdown pipeline, and concatenate the emitted batches; any
error terminates the stream. -/
def runStream {α : Type} [Inhabited α] (takeIndices : Option (List ℕ))
    (filters : List (List (List α) → List Bool))
    (projection : Option (List ℕ)) :
    ℕ → List (List (List α)) → Option (List (List α))
  | _, [] => some []
  | o, b :: bs =>
    match pollEmit takeIndices o filters projection b with
    | none => none
    | some r =>
      match runStream takeIndices filters projection (o + b.length) bs with
      | none => none
      | some rest => some (r ++ rest)

/-- A file reader configured with take indices only (no row filter, no
projection), as claim C2 describes: the batches are the decoded chunks of
the file. -/
def readWithTake {α : Type} [Inhabited α] (batches : List (List (List α)))
    (indices : List ℕ) : Option (List (List α)) :=
  runStream (some indices) [] none 0 batches

/-! Helper lemmas about sorted index lists, shared by the stream claims. -/

theorem take_countP_of_sorted {l : List ℕ} {v : ℕ} (h : l.Sorted (· ≤ ·)) :
    l.take (l.countP (fun x => decide (x < v))) = l.filter (fun x => decide (x < v)) := by
  induction l with
  | nil => simp
  | cons a t ih =>
    rcases List.sorted_cons.mp h with ⟨ha, ht⟩
    by_cases hav : a < v
    · simp [List.countP_cons, hav, List.filter_cons, List.take_succ_cons, ih ht]
    · have hvle : v ≤ a := Nat.le_of_not_lt hav
      have h0 : t.countP (fun x => decide (x < v)) = 0 := by
        rw [List.countP_eq_length_filter, List.length_eq_zero, List.filter_eq_nil_iff]
        intro x hx
        simp only [decide_eq_true_eq]
        exact Nat.not_lt.mpr (le_trans hvle (ha x hx))
      have hca : (decide (a < v)) = false := by simp [hav]
      have hft : List.filter (fun x => decide (x < v)) t = [] := by
        rw [List.filter_eq_nil_iff]
        intro x hx
        simp only [decide_eq_true_eq]
        exact Nat.not_lt.mpr (le_trans hvle (ha x hx))
      simp [List.countP_cons, hca, h0, List.filter_cons, hft]

theorem drop_countP_of_sorted {l : List ℕ} {v : ℕ} (h : l.Sorted (· ≤ ·)) :
    l.drop (l.countP (fun x => decide (x < v))) = l.filter (fun x => decide (v ≤ x)) := by
  induction l with
  | nil => simp
  | cons a t ih =>
    rcases List.sorted_cons.mp h with ⟨ha, ht⟩
    by_cases hav : a < v
    · have hna : ¬ v ≤ a := by omega
      simp [List.countP_cons, hav, List.filter_cons, List.drop_succ_cons, ih ht, hna]
    · have hvle : v ≤ a := Nat.le_of_not_lt hav
      have h0 : t.countP (fun x => decide (x < v)) = 0 := by
        rw [List.countP_eq_length_filter, List.length_eq_zero, List.filter_eq_nil_iff]
        intro x hx
        simp only [decide_eq_true_eq]
        exact Nat.not_lt.mpr (le_trans hvle (ha x hx))
      have hca : (decide (a < v)) = false := by simp [hav]
      have hft : List.filter (fun x => decide (v ≤ x)) t = t := by
        rw [List.filter_eq_self]
        intro x hx
        simp only [decide_eq_true_eq]
        exact le_trans hvle (ha x hx)
      simp [List.countP_cons, hca, h0, List.filter_cons, hvle, hft]

theorem sliceList_searchSorted_of_sorted {l : List ℕ} {a b : ℕ}
    (h : l.Sorted (· ≤ ·)) (hab : a ≤ b) :
    sliceList l (searchSortedLeft l a) (searchSortedLeft l b) =
      l.filter (fun x => decide (a ≤ x) && decide (x < b)) := by
  unfold sliceList searchSortedLeft
  rw [take_countP_of_sorted h]
  have hsortf : (l.filter (fun x => decide (x < b))).Sorted (· ≤ ·) :=
    List.Pairwise.filter _ h
  have hcnt : l.countP (fun x => decide (x < a)) =
      (l.filter (fun x => decide (x < b))).countP (fun x => decide (x < a)) := by
    rw [List.countP_filter, List.countP_eq_length_filter, List.countP_eq_length_filter]
    refine congrArg _ (List.filter_congr ?_)
    intro x hx
    by_cases h1 : x < a
    · have h2 : x < b := lt_of_lt_of_le h1 hab
      simp [h1, h2]
    · simp [h1]
  rw [hcnt, drop_countP_of_sorted hsortf, List.filter_filter]

theorem filter_split_of_sorted {l : List ℕ} {o m : ℕ}
    (h : l.Sorted (· ≤ ·)) (hom : o ≤ m) :
    l.filter (fun x => decide (o ≤ x)) =
      l.filter (fun x => decide (o ≤ x) && decide (x < m)) ++
        l.filter (fun x => decide (m ≤ x)) := by
  have h2 : (l.filter (fun x => decide (o ≤ x))).Sorted (· ≤ ·) :=
    List.Pairwise.filter _ h
  conv_lhs =>
    rw [← List.take_append_drop
      ((l.filter (fun x => decide (o ≤ x))).countP (fun x => decide (x < m)))
      (l.filter (fun x => decide (o ≤ x)))]
  rw [take_countP_of_sorted h2, drop_countP_of_sorted h2, List.filter_filter,
    List.filter_filter]
  refine congrArg₂ _ (List.filter_congr ?_) (List.filter_congr ?_)
  · intro x hx
    by_cases h1 : x < m <;> by_cases hox : o ≤ x <;> simp [h1, hox]
  · intro x hx
    by_cases h1 : m ≤ x
    · have hox : o ≤ x := le_trans hom h1
      simp [h1, hox]
    · simp [h1]

theorem takeRows_eq_map {ρ : Type} [Inhabited ρ] (rows : List ρ) (idxs : List ℕ)
    (h : ∀ i ∈ idxs, i < rows.length) :
    takeRows rows idxs = some (idxs.map (fun i => rows.getD i default)) := by
  induction idxs with
  | nil => rfl
  | cons i is ih =>
    have hi : i < rows.length := h i (List.mem_cons_self i is)
    have hrest : ∀ j ∈ is, j < rows.length := fun j hj => h j (List.mem_cons_of_mem _ hj)
    have hget : rows[i]? = some (rows.getD i default) := by
      rw [List.getD_eq_getElem _ _ hi]
      exact List.getElem?_eq_getElem hi
    simp only [takeRows, List.get?_eq_getElem?, hget, ih hrest, Option.map_some']
    rfl

theorem filterRows_replicate_true {ρ : Type} (l : List ρ) :
    filterRows l (List.replicate l.length true) = l := by
  induction l with
  | nil => rfl
  | cons a t ih => simp [filterRows, List.replicate_succ, ih]

theorem pollEmit_take_only {α : Type} [Inhabited α] (idx : List ℕ) (o : ℕ)
    (s : List (List α)) :
    pollEmit (some idx) o [] none s = takeBatch idx o s := by
  unfold pollEmit
  cases htb : takeBatch idx o s with
  | none => simp [htb]
  | some s1 =>
    have hfun : @applyProj α _ none = fun r => r := rfl
    simp [htb, filterRows_replicate_true, hfun]

theorem runStream_cons_eq {α : Type} [Inhabited α] (tk : Option (List ℕ))
    (fl : List (List (List α) → List Bool)) (pj : Option (List ℕ)) (o : ℕ)
    (b : List (List α)) (t : List (List (List α))) (r rest : List (List α))
    (h1 : pollEmit tk o fl pj b = some r)
    (h2 : runStream tk fl pj (o + b.length) t = some rest) :
    runStream tk fl pj o (b :: t) = some (r ++ rest) := by
  simp [runStream, h1, h2]

theorem runStream_take_sorted {α : Type} [Inhabited α] (indices : List ℕ)
    (hs : indices.Sorted (· ≤ ·)) :
    ∀ (bs : List (List (List α))) (o : ℕ),
      (∀ i ∈ indices, i < o + bs.flatten.length) →
      runStream (some indices) [] none o bs =
        some ((indices.filter (fun i => decide (o ≤ i))).map
          (fun i => bs.flatten.getD (i - o) default)) := by
  intro bs
  induction bs with
  | nil =>
    intro o hb
    have hnil : indices.filter (fun i => decide (o ≤ i)) = [] := by
      rw [List.filter_eq_nil_iff]
      intro i hi
      have hlt := hb i hi
      simp only [List.flatten_nil, List.length_nil, Nat.add_zero] at hlt
      simp only [decide_eq_true_eq]
      omega
    simp [runStream, hnil]
  | cons b t ih =>
    intro o hb
    have hslice := @sliceList_searchSorted_of_sorted indices o (o + b.length) hs
      (by omega)
    have hbt : ∀ i ∈ indices, i < (o + b.length) + t.flatten.length := by
      intro i hi
      have hlt := hb i hi
      simp only [List.flatten_cons, List.length_append] at hlt
      omega
    have hiht := ih (o + b.length) hbt
    have hforall : ∀ j ∈ (indices.filter
        (fun x => decide (o ≤ x) && decide (x < o + b.length))).map (fun i => i - o),
        j < b.length := by
      intro j hj
      rcases List.mem_map.mp hj with ⟨i, hi, rfl⟩
      rcases List.mem_filter.mp hi with ⟨_, hcond⟩
      simp only [Bool.and_eq_true, decide_eq_true_eq] at hcond
      omega
    have htb : takeBatch indices o b = some (((indices.filter
        (fun x => decide (o ≤ x) && decide (x < o + b.length))).map
          (fun i => i - o)).map (fun j => b.getD j default)) := by
      simp only [takeBatch]
      rw [hslice, takeRows_eq_map _ _ hforall]
    rw [runStream_cons_eq _ _ _ _ _ _ _ _ (pollEmit_take_only indices o b ▸ htb) hiht]
    rw [List.flatten_cons, filter_split_of_sorted hs (show o ≤ o + b.length by omega),
      List.map_append]
    have hA : ((indices.filter
        (fun x => decide (o ≤ x) && decide (x < o + b.length))).map
          (fun i => i - o)).map (fun j => b.getD j default)
        = (indices.filter (fun x => decide (o ≤ x) && decide (x < o + b.length))).map
          (fun i => (b ++ t.flatten).getD (i - o) default) := by
      rw [List.map_map]
      refine List.map_congr_left ?_
      intro i hi
      rcases List.mem_filter.mp hi with ⟨_, hcond⟩
      simp only [Bool.and_eq_true, decide_eq_true_eq] at hcond
      have hlt : i - o < b.length := by omega
      simp only [Function.comp_apply]
      rw [List.getD_append _ _ _ _ hlt]
    have hB : (indices.filter (fun x => decide (o + b.length ≤ x))).map
        (fun i => t.flatten.getD (i - (o + b.length)) default)
        = (indices.filter (fun x => decide (o + b.length ≤ x))).map
          (fun i => (b ++ t.flatten).getD (i - o) default) := by
      refine List.map_congr_left ?_
      intro i hi
      rcases List.mem_filter.mp hi with ⟨_, hcond⟩
      simp only [decide_eq_true_eq] at hcond
      have hge : b.length ≤ i - o := by omega
      rw [List.getD_append_right _ _ _ _ hge]
      congr 1
      omega
    rw [hA, hB]

theorem map_getD_range {ρ : Type} [Inhabited ρ] (l : List ρ) :
    (List.range l.length).map (fun i => l.getD i default) = l := by
  refine List.ext_get ?_ ?_
  · simp
  · intro i h1 h2
    simp only [List.get_eq_getElem, List.getElem_map, List.getElem_range]
    rw [List.getD_eq_getElem _ _ h2]

theorem zipWith_and_getD (x y : List Bool) (i : ℕ) (hx : i < x.length)
    (hy : i < y.length) :
    (x.zipWith (fun a b => a && b) y).getD i false =
      (x.getD i false && y.getD i false) := by
  have hz : i < (x.zipWith (fun a b => a && b) y).length := by
    rw [List.length_zipWith]
    omega
  rw [List.getD_eq_getElem _ _ hz, List.getD_eq_getElem _ _ hx,
    List.getD_eq_getElem _ _ hy, List.getElem_zipWith]

theorem mask_foldl_eq {ρ : Type} (t : List ρ)
    (filters : List (List ρ → List Bool))
    (hlen : ∀ f ∈ filters, (f t).length = t.length) :
    ∀ acc : List Bool, acc.length = t.length →
    filters.foldl (fun acc f => acc.zipWith (fun x y => x && y) (f t)) acc =
      (List.range t.length).map
        (fun i => acc.getD i false && filters.all (fun f => (f t).getD i false)) := by
  induction filters with
  | nil =>
    intro acc hacc
    simp only [List.foldl_nil, List.all_nil, Bool.and_true]
    have hmap : (List.range t.length).map (fun i => acc.getD i false) = acc := by
      rw [← hacc]
      exact map_getD_range acc
    rw [hmap]
  | cons f fs ih =>
    intro acc hacc
    have hf : (f t).length = t.length := hlen f (List.mem_cons_self f fs)
    have hfs : ∀ g ∈ fs, (g t).length = t.length :=
      fun g hg => hlen g (List.mem_cons_of_mem _ hg)
    have hacc2 : (acc.zipWith (fun x y => x && y) (f t)).length = t.length := by
      rw [List.length_zipWith, hacc, hf]
      omega
    rw [List.foldl_cons, ih hfs _ hacc2]
    refine List.map_congr_left ?_
    intro i hi
    have hilt : i < t.length := List.mem_range.mp hi
    rw [zipWith_and_getD _ _ _ (by omega) (by omega)]
    simp [List.all_cons, Bool.and_assoc]

theorem filterRows_map_range {ρ : Type} [Inhabited ρ] :
    ∀ (l : List ρ) (g : ℕ → Bool),
    filterRows l ((List.range l.length).map g) =
      ((List.range l.length).filter g).map (fun i => l.getD i default)
  | [], g => rfl
  | x :: xs, g => by
    have ih := filterRows_map_range xs (fun i => g (i + 1))
    rw [List.length_cons, List.range_succ_eq_map, List.map_cons]
    have hmapsucc : ((List.range xs.length).map Nat.succ).map g =
        (List.range xs.length).map (fun i => g (i + 1)) := by
      rw [List.map_map]
      rfl
    have hcomp : (g ∘ Nat.succ) = (fun i => g (i + 1)) := rfl
    cases hg : g 0 with
    | false =>
      rw [hmapsucc]
      have hred : filterRows (x :: xs)
          (false :: (List.range xs.length).map (fun i => g (i + 1))) =
          filterRows xs ((List.range xs.length).map (fun i => g (i + 1))) := rfl
      rw [hred, ih, List.filter_cons, hg]
      simp only [Bool.false_eq_true, if_false]
      rw [List.filter_map, List.map_map, hcomp]
      refine (List.map_congr_left ?_).symm
      intro i hi
      rfl
    | true =>
      rw [hmapsucc]
      have hred : filterRows (x :: xs)
          (true :: (List.range xs.length).map (fun i => g (i + 1))) =
          x :: filterRows xs ((List.range xs.length).map (fun i => g (i + 1))) := rfl
      rw [hred, ih, List.filter_cons, hg]
      simp only [if_true, List.map_cons]
      rw [List.filter_map, List.map_map, hcomp]
      refine congrArg₂ _ rfl ?_
      refine (List.map_congr_left ?_).symm
      intro i hi
      rfl

/-- Claim C1 as stated is false: the persisted encoding identifier returned
by ALPArray::encoding().id() is "enc.alp", not "vortex.alp"; witnessed by a
concrete ALPArray. -/
theorem claimC1_counterexample : alpSample.encoding.id ≠ specAlpId := by
  decide

/-- Claim C1 (amended): the persisted encoding identifier of the ALP
encoding is the stable string "enc.alp", and that of the RoaringBool
encoding is "roaring.bool": every ALPArray reports "enc.alp" and every
RoaringBoolArray reports "roaring.bool". -/
theorem claimC1_amended :
    (∀ a : ALPArray, (ALPArray.encoding a).id.name = "enc.alp") ∧
    (∀ r : RoaringBoolArray, (RoaringBoolArray.encoding r).id.name = "roaring.bool") :=
  ⟨fun _ => rfl, fun _ => rfl⟩

/-- Claim C5: every successfully constructed ALPArray has an Int 32 or
Int 64 encoded child and its own DType is Float 32 or Float 64
respectively with the nullability of the encoded child; try_new rejects every
other encoded child DType with InvalidDType. -/
theorem claimC5 :
    (∀ (encoded : EncArrayRef) (exps : ALPExponents) (patches : Option EncArrayRef)
      (a : ALPArray), ALPArray.tryNew encoded exps patches = .ok a →
      a.encoded = encoded ∧
      ((∃ s n, encoded.dtype = DType.int IntWidth.w32 s n ∧
          a.dtype = DType.float FloatWidth.w32 n) ∨
        (∃ s n, encoded.dtype = DType.int IntWidth.w64 s n ∧
          a.dtype = DType.float FloatWidth.w64 n))) ∧
    (∀ (encoded : EncArrayRef) (exps : ALPExponents) (patches : Option EncArrayRef),
      (∀ s n, encoded.dtype ≠ DType.int IntWidth.w32 s n ∧
        encoded.dtype ≠ DType.int IntWidth.w64 s n) →
      ALPArray.tryNew encoded exps patches =
        .error (EncError.invalidDType encoded.dtype)) := by
  constructor
  · intro encoded exps patches a hok
    unfold ALPArray.tryNew at hok
    cases hd : encoded.dtype with
    | int w s n =>
      rw [hd] at hok
      cases w with
      | w32 =>
        cases hok
        exact ⟨rfl, Or.inl ⟨s, n, rfl, rfl⟩⟩
      | w64 =>
        cases hok
        exact ⟨rfl, Or.inr ⟨s, n, rfl, rfl⟩⟩
      | w8 => exact Except.noConfusion hok
      | w16 => exact Except.noConfusion hok
    | null => rw [hd] at hok; exact Except.noConfusion hok
    | bool n => rw [hd] at hok; exact Except.noConfusion hok
    | float w n => rw [hd] at hok; exact Except.noConfusion hok
    | utf8 n => rw [hd] at hok; exact Except.noConfusion hok
    | binary n => rw [hd] at hok; exact Except.noConfusion hok
  · intro encoded exps patches hne
    unfold ALPArray.tryNew
    cases hd : encoded.dtype with
    | int w s n =>
      cases w with
      | w32 => exact absurd hd (hne s n).1
      | w64 => exact absurd hd (hne s n).2
      | w8 => rfl
      | w16 => rfl
    | null => rfl
    | bool n => rfl
    | float w n => rfl
    | utf8 n => rfl
    | binary n => rfl

/-- Witness for claim C5 at concrete inputs: an Int 32 child succeeds with a
Float 32 result, and a Bool child is rejected with InvalidDType. -/
theorem claimC5_witness :
    (ALPArray.tryNew ⟨DType.int IntWidth.w32 Signedness.signed Nullability.nonNullable⟩
        ⟨1, 0⟩ none = .ok alpSample ∧
      alpSample.encoded = ⟨DType.int IntWidth.w32 Signedness.signed Nullability.nonNullable⟩ ∧
      ((∃ s n, (⟨DType.int IntWidth.w32 Signedness.signed Nullability.nonNullable⟩ :
            EncArrayRef).dtype = DType.int IntWidth.w32 s n ∧
          alpSample.dtype = DType.float FloatWidth.w32 n) ∨
        (∃ s n, (⟨DType.int IntWidth.w32 Signedness.signed Nullability.nonNullable⟩ :
            EncArrayRef).dtype = DType.int IntWidth.w64 s n ∧
          alpSample.dtype = DType.float FloatWidth.w64 n))) ∧
    ALPArray.tryNew ⟨DType.bool Nullability.nonNullable⟩ ⟨1, 0⟩ none =
      .error (EncError.invalidDType (DType.bool Nullability.nonNullable)) := by
  constructor
  · have h := claimC5.1
      ⟨DType.int IntWidth.w32 Signedness.signed Nullability.nonNullable⟩ ⟨1, 0⟩ none
      alpSample rfl
    exact ⟨rfl, h.1, h.2⟩
  · exact claimC5.2 ⟨DType.bool Nullability.nonNullable⟩ ⟨1, 0⟩ none
      (fun s n => ⟨fun h => DType.noConfusion h, fun h => DType.noConfusion h⟩)

/-- Claim C7: scalar_at on a RoaringBool array returns whether the bitmap
contains the index for every in-bounds index, an OutOfBounds error for
every index at or beyond the length, and on the encoding of a bool list it
returns exactly the original elements. -/
theorem claimC7 :
    (∀ (r : RoaringBoolArray) (i : ℕ), i < r.length →
      r.scalarAt i = .ok (decide (i ∈ r.bitmap))) ∧
    (∀ (r : RoaringBoolArray) (i : ℕ), r.length ≤ i →
      r.scalarAt i = .error EncError.outOfBounds) ∧
    (∀ (bools : List Bool) (i : ℕ), i < bools.length →
      (roaringEncode bools).scalarAt i = .ok (bools.getD i false)) := by
  have h1 : ∀ (r : RoaringBoolArray) (i : ℕ), i < r.length →
      r.scalarAt i = .ok (decide (i ∈ r.bitmap)) := by
    intro r i hi
    unfold RoaringBoolArray.scalarAt checkIndexBounds
    rw [if_pos hi]
    by_cases hm : i ∈ r.bitmap
    · rw [if_pos hm, decide_eq_true hm]
    · rw [if_neg hm, decide_eq_false hm]
  refine ⟨h1, ?_, ?_⟩
  · intro r i hi
    unfold RoaringBoolArray.scalarAt checkIndexBounds
    rw [if_neg (by omega)]
  · intro bools i hi
    have hlen : (roaringEncode bools).length = bools.length := rfl
    rw [h1 (roaringEncode bools) i (by rw [hlen]; exact hi)]
    refine congrArg _ ?_
    have hmem : i ∈ (roaringEncode bools).bitmap ↔ bools.getD i false = true := by
      unfold roaringEncode
      simp only [Finset.mem_filter, Finset.mem_range]
      exact ⟨fun h => h.2, fun h => ⟨hi, h⟩⟩
    cases hb : bools.getD i false with
    | true => exact decide_eq_true (hmem.mpr hb)
    | false =>
      refine decide_eq_false ?_
      intro hc
      rw [hmem.mp hc] at hb
      cases hb

/-- Witness for claim C7 at the concrete input of the spec: the encoding of
[true, false, true, true] has set-bit positions [0, 2, 3] and scalar_at
returns true, false, true, true at indices 0..3, and OutOfBounds at 4. -/
theorem claimC7_witness :
    ((roaringEncode [true, false, true, true]).bitmap = ({0, 2, 3} : Finset ℕ)) ∧
    (roaringEncode [true, false, true, true]).scalarAt 0 = .ok true ∧
    (roaringEncode [true, false, true, true]).scalarAt 1 = .ok false ∧
    (roaringEncode [true, false, true, true]).scalarAt 2 = .ok true ∧
    (roaringEncode [true, false, true, true]).scalarAt 3 = .ok true ∧
    (roaringEncode [true, false, true, true]).scalarAt 4 =
      .error EncError.outOfBounds := by
  refine ⟨by decide, ?_, ?_, ?_, ?_, ?_⟩
  · exact claimC7.2.2 [true, false, true, true] 0 (by decide)
  · exact claimC7.2.2 [true, false, true, true] 1 (by decide)
  · exact claimC7.2.2 [true, false, true, true] 2 (by decide)
  · exact claimC7.2.2 [true, false, true, true] 3 (by decide)
  · exact claimC7.2.1 (roaringEncode [true, false, true, true]) 4 (by decide)

/-- Claim C8: the take kernel rejects indices that are not non-nullable
integers without consulting the target array; with valid indices it uses
the take implementation of the receiver encoding when present, otherwise the
the implementation of the canonical form, and yields NotImplemented exactly when
the canonical form also lacks one. -/
theorem claimC8 :
    (∀ (ι ρ : Type) (a a2 : DynArray ι ρ) (idx : IndicesArray ι),
      (idx.dtype.isInt = false ∨ idx.dtype.isNullable = true) →
      take a idx = .error VortexError.invalidIndicesDType ∧
        take a idx = take a2 idx) ∧
    (∀ (ι ρ : Type) (a : DynArray ι ρ) (idx : IndicesArray ι)
      (f : ι → Except VortexError ρ),
      idx.dtype.isInt = true → idx.dtype.isNullable = false →
      a.takeFn = some f → take a idx = f idx.data) ∧
    (∀ (ι ρ : Type) (a : DynArray ι ρ) (idx : IndicesArray ι)
      (g : ι → Except VortexError ρ),
      idx.dtype.isInt = true → idx.dtype.isNullable = false →
      a.takeFn = none → a.intoCanonical = .ok (some g) →
      take a idx = g idx.data) ∧
    (∀ (ι ρ : Type) (a : DynArray ι ρ) (idx : IndicesArray ι),
      idx.dtype.isInt = true → idx.dtype.isNullable = false →
      a.takeFn = none → a.intoCanonical = .ok none →
      take a idx = .error (VortexError.notImplementedTake a.encodingId)) := by
  refine ⟨?_, ?_, ?_, ?_⟩
  · intro ι ρ a a2 idx h
    have hcond : ¬ idx.dtype.isInt = true ∨ idx.dtype.isNullable = true := by
      rcases h with h | h
      · exact Or.inl (by rw [h]; exact Bool.false_ne_true)
      · exact Or.inr h
    constructor
    · unfold take
      rw [if_pos hcond]
    · unfold take
      rw [if_pos hcond, if_pos hcond]
  · intro ι ρ a idx f hint hnull hf
    unfold take
    rw [if_neg (by rw [hint, hnull]; simp), hf]
  · intro ι ρ a idx g hint hnull hf hc
    unfold take
    rw [if_neg (by rw [hint, hnull]; simp), hf, hc]
  · intro ι ρ a idx hint hnull hf hc
    unfold take
    rw [if_neg (by rw [hint, hnull]; simp), hf, hc]

/-- Witness for claim C8 at concrete inputs: float indices are rejected
regardless of the receiver, integer indices dispatch to the receiver
implementation, and a receiver without take whose canonical form also
lacks take yields NotImplemented. -/
theorem claimC8_witness :
    (take (⟨⟨"vortex.primitive"⟩, some (fun n => .ok n), .ok none⟩ : DynArray ℕ ℕ)
        ⟨VDType.primitive PType.f32 Nullability.nonNullable, 7⟩ =
        .error VortexError.invalidIndicesDType) ∧
    (take (⟨⟨"vortex.primitive"⟩, some (fun n => .ok (n + 1)), .ok none⟩ : DynArray ℕ ℕ)
        ⟨VDType.primitive PType.u32 Nullability.nonNullable, 7⟩ = .ok 8) ∧
    (take (⟨⟨"vortex.alp"⟩, none, .ok none⟩ : DynArray ℕ ℕ)
        ⟨VDType.primitive PType.u32 Nullability.nonNullable, 7⟩ =
        .error (VortexError.notImplementedTake ⟨"vortex.alp"⟩)) := by
  refine ⟨?_, ?_, ?_⟩
  · exact (claimC8.1 ℕ ℕ _ ⟨⟨"vortex.primitive"⟩, some (fun n => .ok n), .ok none⟩
      ⟨VDType.primitive PType.f32 Nullability.nonNullable, 7⟩ (Or.inl (by decide))).1
  · exact claimC8.2.1 ℕ ℕ _ ⟨VDType.primitive PType.u32 Nullability.nonNullable, 7⟩
      (fun n => .ok (n + 1)) (by decide) (by decide) rfl
  · exact claimC8.2.2.2 ℕ ℕ _ ⟨VDType.primitive PType.u32 Nullability.nonNullable, 7⟩
      (by decide) (by decide) rfl rfl

/-- Claim C6: slicing a RoaringBool array with valid bounds a <= b <= n
returns a RoaringBool array of length b - a whose set positions are exactly
the in-range positions shifted down by a, and out-of-bounds ranges yield an
OutOfBounds error. -/
theorem claimC6 :
    (∀ (r : RoaringBoolArray) (a b : ℕ), a ≤ b → b ≤ r.length →
      ∃ r2 : RoaringBoolArray, r.slice a b = .ok r2 ∧ r2.length = b - a ∧
        ∀ q : ℕ, q ∈ r2.bitmap ↔ ∃ p, p ∈ r.bitmap ∧ a ≤ p ∧ p < b ∧ q = p - a) ∧
    (∀ (r : RoaringBoolArray) (a b : ℕ), ¬ (a ≤ b ∧ b ≤ r.length) →
      r.slice a b = .error EncError.outOfBounds) := by
  constructor
  · intro r a b hab hbl
    have hchk : checkSliceBounds r.length a b = .ok () := by
      unfold checkSliceBounds
      rw [if_pos ⟨hab, hbl⟩]
    refine ⟨⟨(Bitmap.andB r.bitmap (Bitmap.fromRange a b)).addOffset (-(a : ℤ)),
      b - a⟩, ?_, rfl, ?_⟩
    · unfold RoaringBoolArray.slice
      rw [hchk]
    · intro q
      unfold Bitmap.addOffset Bitmap.andB Bitmap.fromRange
      simp only [Finset.mem_image, Finset.mem_filter, Finset.mem_inter, Finset.mem_Ico]
      constructor
      · rintro ⟨p, ⟨⟨hpb, hpa, hpl⟩, hnn⟩, hq⟩
        exact ⟨p, hpb, hpa, hpl, by omega⟩
      · rintro ⟨p, hpb, hpa, hpl, rfl⟩
        exact ⟨p, ⟨⟨hpb, hpa, hpl⟩, by omega⟩, by omega⟩
  · intro r a b hne
    unfold RoaringBoolArray.slice checkSliceBounds
    rw [if_neg hne]

/-- Witness for claim C6 at the spec scenario: slicing positions 1 to 4 of
the encoding of [true, false, true, true] succeeds with length 3 and the
characterized set positions, and slicing 2 to 5 of the same length-4 array
errors. -/
theorem claimC6_witness :
    (∃ r2 : RoaringBoolArray,
      (roaringEncode [true, false, true, true]).slice 1 4 = .ok r2 ∧
      r2.length = 4 - 1 ∧
      ∀ q : ℕ, q ∈ r2.bitmap ↔
        ∃ p, p ∈ (roaringEncode [true, false, true, true]).bitmap ∧
          1 ≤ p ∧ p < 4 ∧ q = p - 1) ∧
    (roaringEncode [true, false, true, true]).slice 2 5 =
      .error EncError.outOfBounds :=
  ⟨claimC6.1 (roaringEncode [true, false, true, true]) 1 4 (by omega) (by decide),
    claimC6.2 (roaringEncode [true, false, true, true]) 2 5 (by decide)⟩

/-- Claim C4: after ALP-encoding a float primitive array (floats modelled as
rationals, any exponent pair), the patches child is None exactly when no
position is an exception; otherwise it is a Sparse array whose index child
is the list of exception positions and whose value child is the original
values at those positions, with the array length recorded. -/
theorem claimC4 (w : ℕ) (ex : ALPExponents) (vs : List ℚ) :
    ((alpEncodePrimitive w ex vs).patches = none ↔
      ∀ i, i < vs.length → alpIsException w ex (vs.getD i 0) = false) ∧
    (∀ sp : SparseArray, (alpEncodePrimitive w ex vs).patches = some sp →
      sp.indices = (List.range vs.length).filter
        (fun i => alpIsException w ex (vs.getD i 0)) ∧
      sp.values = sp.indices.map (fun i => vs.getD i 0) ∧
      sp.len = vs.length) := by
  have hidx : intoU32Vec (alpEncodeWith w ex vs).exceptionsIdx
      (alpEncodeWith w ex vs).numExceptions =
      (List.range vs.length).filter (fun i => alpIsException w ex (vs.getD i 0)) := by
    unfold intoU32Vec alpEncodeWith
    exact List.take_length _
  have hcount : (alpEncodeWith w ex vs).numExceptions =
      ((List.range vs.length).filter
        (fun i => alpIsException w ex (vs.getD i 0))).length := rfl
  have hpatches : (alpEncodePrimitive w ex vs).patches =
      if (alpEncodeWith w ex vs).numExceptions = 0 then none
      else some ⟨intoU32Vec (alpEncodeWith w ex vs).exceptionsIdx
          (alpEncodeWith w ex vs).numExceptions,
        gatherPatches vs (intoU32Vec (alpEncodeWith w ex vs).exceptionsIdx
          (alpEncodeWith w ex vs).numExceptions),
        vs.length⟩ := rfl
  constructor
  · constructor
    · intro hnone i hi
      by_cases h0 : (alpEncodeWith w ex vs).numExceptions = 0
      · rw [hcount, List.length_eq_zero, List.filter_eq_nil_iff] at h0
        cases hP : alpIsException w ex (vs.getD i 0) with
        | false => rfl
        | true => exact absurd hP (h0 i (List.mem_range.mpr hi))
      · rw [hpatches, if_neg h0] at hnone
        exact Option.noConfusion hnone
    · intro hall
      have h0 : (alpEncodeWith w ex vs).numExceptions = 0 := by
        rw [hcount, List.length_eq_zero, List.filter_eq_nil_iff]
        intro i hi
        rw [hall i (List.mem_range.mp hi)]
        exact Bool.false_ne_true
      rw [hpatches, if_pos h0]
  · intro sp hsp
    rw [hpatches] at hsp
    by_cases h0 : (alpEncodeWith w ex vs).numExceptions = 0
    · rw [if_pos h0] at hsp
      exact Option.noConfusion hsp
    · rw [if_neg h0] at hsp
      injection hsp with hsp
      cases hsp
      exact ⟨hidx, rfl, rfl⟩

/-- Witness for claim C4 at concrete inputs: with exponents 1, 0 the array
of 1.5 and 1000000000 has one overflow exception at position 1 and its
patches child carries that position and original value; the array of 1.1,
2.2, 3.3 has no exceptions and no patches child. -/
theorem claimC4_witness :
    ((alpEncodePrimitive 32 ⟨1, 0⟩ [3 / 2, 1000000000]).patches =
      some ⟨[1], [1000000000], 2⟩) ∧
    ((⟨[1], [1000000000], 2⟩ : SparseArray).indices =
      (List.range ([3 / 2, 1000000000] : List ℚ).length).filter
        (fun i => alpIsException 32 ⟨1, 0⟩ (([3 / 2, 1000000000] : List ℚ).getD i 0)) ∧
      (⟨[1], [1000000000], 2⟩ : SparseArray).values =
        (⟨[1], [1000000000], 2⟩ : SparseArray).indices.map
          (fun i => ([3 / 2, 1000000000] : List ℚ).getD i 0) ∧
      (⟨[1], [1000000000], 2⟩ : SparseArray).len =
        ([3 / 2, 1000000000] : List ℚ).length) ∧
    (alpEncodePrimitive 32 ⟨1, 0⟩ [11 / 10, 22 / 10, 33 / 10]).patches = none := by
  have he1 : alpIsException 32 ⟨1, 0⟩ ((3 : ℚ) / 2) = false := by
    simp only [alpIsException, alpDecodeValue, alpEncodeValue]
    norm_num
  have he2 : alpIsException 32 ⟨1, 0⟩ ((1000000000 : ℚ)) = true := by
    simp only [alpIsException, alpDecodeValue, alpEncodeValue]
    norm_num
  have hfilter : (List.range ([3 / 2, 1000000000] : List ℚ).length).filter
      (fun i => alpIsException 32 ⟨1, 0⟩ (([3 / 2, 1000000000] : List ℚ).getD i 0)) =
      [1] := by
    have hr : List.range ([3 / 2, 1000000000] : List ℚ).length = [0, 1] := rfl
    rw [hr]
    have h0 : alpIsException 32 ⟨1, 0⟩ (([3 / 2, 1000000000] : List ℚ).getD 0 0) =
        false := he1
    have h1 : alpIsException 32 ⟨1, 0⟩ (([3 / 2, 1000000000] : List ℚ).getD 1 0) =
        true := he2
    simp [List.filter_cons, he1, he2]
  have hsome : (alpEncodePrimitive 32 ⟨1, 0⟩ [3 / 2, 1000000000]).patches =
      some ⟨[1], [1000000000], 2⟩ := by
    simp only [alpEncodePrimitive, alpEncodeWith, intoU32Vec, gatherPatches]
    rw [hfilter]
    rfl
  refine ⟨hsome, ?_, ?_⟩
  · exact (claimC4 32 ⟨1, 0⟩ [3 / 2, 1000000000]).2 ⟨[1], [1000000000], 2⟩ hsome
  · refine (claimC4 32 ⟨1, 0⟩ [11 / 10, 22 / 10, 33 / 10]).1.mpr ?_
    intro i hi
    have hi3 : i < 3 := hi
    interval_cases i
    · simp only [alpIsException, alpDecodeValue, alpEncodeValue]
      norm_num
    · simp only [alpIsException, alpDecodeValue, alpEncodeValue]
      norm_num
    · simp only [alpIsException, alpDecodeValue, alpEncodeValue]
      norm_num

theorem listSlice_drop (l : List ℕ) (k a b : ℕ) :
    listSlice (l.drop k) a b = listSlice l (k + a) (k + b) := by
  unfold listSlice
  rw [List.take_drop, List.drop_drop]

/-- Claim C9: read_footer on any file of at least trailer size fails with a
malformed-file error exactly when the last 4 bytes differ from the magic
"VTXF", and otherwise decodes the little-endian u64 schema offset from
bytes [len - 20, len - 12) and the footer offset from [len - 12, len - 4),
the 16 bytes immediately preceding the magic. -/
theorem claimC9 (file : List ℕ) (hlen : 20 ≤ file.length) :
    (file.drop (file.length - 4) ≠ MAGIC_BYTES →
      readFooter file = .error SerdeError.malformedMagic) ∧
    (file.drop (file.length - 4) = MAGIC_BYTES →
      readFooter file = .ok
        ⟨u64FromLEBytes (listSlice file (file.length - 20) (file.length - 12)),
          u64FromLEBytes (listSlice file (file.length - 12) (file.length - 4)),
          file.drop (file.length - min FOOTER_READ_SIZE file.length),
          file.length - min FOOTER_READ_SIZE file.length⟩) := by
  have hm4 : MAGIC_BYTES.length = 4 := rfl
  have hrs4 : 20 ≤ min FOOTER_READ_SIZE file.length := by
    unfold FOOTER_READ_SIZE
    omega
  have hrsle : min FOOTER_READ_SIZE file.length ≤ file.length := Nat.min_le_right _ _
  have hmagic : (file.drop (file.length - min FOOTER_READ_SIZE file.length)).drop
      (min FOOTER_READ_SIZE file.length - MAGIC_BYTES.length) =
      file.drop (file.length - 4) := by
    rw [List.drop_drop]
    congr 1
    omega
  have hs1 : listSlice (file.drop (file.length - min FOOTER_READ_SIZE file.length))
      (min FOOTER_READ_SIZE file.length - MAGIC_BYTES.length - 8)
      (min FOOTER_READ_SIZE file.length - MAGIC_BYTES.length) =
      listSlice file (file.length - 12) (file.length - 4) := by
    rw [listSlice_drop]
    congr 1 <;> omega
  have hs2 : listSlice (file.drop (file.length - min FOOTER_READ_SIZE file.length))
      (min FOOTER_READ_SIZE file.length - MAGIC_BYTES.length - 16)
      (min FOOTER_READ_SIZE file.length - MAGIC_BYTES.length - 8) =
      listSlice file (file.length - 20) (file.length - 12) := by
    rw [listSlice_drop]
    congr 1 <;> omega
  have hnlt : ¬ file.length < FOOTER_TRAILER_SIZE := by
    unfold FOOTER_TRAILER_SIZE
    omega
  constructor
  · intro hneq
    simp only [readFooter]
    rw [if_neg hnlt, hmagic, if_pos hneq]
  · intro heq
    simp only [readFooter]
    rw [if_neg hnlt, hmagic, if_neg (not_not_intro heq), hs1, hs2]

/-- Witness for claim C9 at a concrete 20-byte file: schema offset 1,
footer offset 2, trailing magic bytes of "VTXF"; and the same file with a
corrupted final byte is rejected as malformed. -/
theorem claimC9_witness :
    readFooter [1, 0, 0, 0, 0, 0, 0, 0, 2, 0, 0, 0, 0, 0, 0, 0, 86, 84, 88, 70] =
      .ok ⟨1, 2, [1, 0, 0, 0, 0, 0, 0, 0, 2, 0, 0, 0, 0, 0, 0, 0, 86, 84, 88, 70], 0⟩ ∧
    readFooter [1, 0, 0, 0, 0, 0, 0, 0, 2, 0, 0, 0, 0, 0, 0, 0, 86, 84, 88, 71] =
      .error SerdeError.malformedMagic := by
  constructor
  · have h := (claimC9
      [1, 0, 0, 0, 0, 0, 0, 0, 2, 0, 0, 0, 0, 0, 0, 0, 86, 84, 88, 70]
      (by decide)).2 (by decide)
    rw [h]
    rfl
  · exact (claimC9
      [1, 0, 0, 0, 0, 0, 0, 0, 2, 0, 0, 0, 0, 0, 0, 0, 86, 84, 88, 71]
      (by decide)).1 (by decide)

/-- Claim C10: for every file shorter than the fixed 20-byte trailer,
read_footer fails with the malformed-length error, the result depends only
on the length and not on the bytes (no content read is consulted), and the
stream build, which reads the footer first, fails the same way for every
continuation. -/
theorem claimC10 :
    (∀ file : List ℕ, file.length < 20 →
      readFooter file = .error SerdeError.malformedFileLength) ∧
    (∀ f g : List ℕ, f.length < 20 → g.length = f.length →
      readFooter f = readFooter g) ∧
    (∀ (σ : Type) (file : List ℕ) (rest : FooterInfo → Except SerdeError σ),
      file.length < 20 → buildStream file rest =
        .error SerdeError.malformedFileLength) := by
  have h1 : ∀ file : List ℕ, file.length < 20 →
      readFooter file = .error SerdeError.malformedFileLength := by
    intro file h
    simp only [readFooter]
    rw [if_pos (show file.length < FOOTER_TRAILER_SIZE from h)]
  refine ⟨h1, ?_, ?_⟩
  · intro f g hf hg
    rw [h1 f hf, h1 g (by omega)]
  · intro σ file rest h
    unfold buildStream
    rw [h1 file h]
    rfl

/-- Witness for claim C10 at a concrete 3-byte file: read_footer fails with
the malformed-length error, a different 3-byte file gives the same result,
and the stream build fails identically. -/
theorem claimC10_witness :
    readFooter [0, 0, 0] = .error SerdeError.malformedFileLength ∧
    readFooter [0, 0, 0] = readFooter [1, 2, 3] ∧
    buildStream [0, 0, 0] (fun fi => .ok fi.schemaOffset) =
      .error SerdeError.malformedFileLength :=
  ⟨claimC10.1 [0, 0, 0] (by decide),
    claimC10.2.1 [0, 0, 0] [1, 2, 3] (by decide) (by decide),
    claimC10.2.2 ℕ [0, 0, 0] (fun fi => .ok fi.schemaOffset) (by decide)⟩

/-- Claim C2 as stated is false: the reader locates the per-batch slice of
the take indices with search_sorted, whose contract requires a sorted
array, so the unsorted in-bounds indices [5, 2] over two 4-row batches do
not yield the rows at positions 5 and 2 (the probe selects index 5 for the
first batch and the gather fails out of bounds). -/
theorem claimC2_counterexample :
    readWithTake [[[10], [11], [12], [13]], [[14], [15], [16], [17]]] [5, 2] ≠
      some [[15], [12]] := by
  decide

/-- Claim C2 (amended): for every take-indices array that is a non-nullable
integer array sorted in non-decreasing order (duplicates allowed) whose
values all lie strictly within the total row count, the reader configured
with those take indices yields exactly the rows at those positions. -/
theorem claimC2_amended {α : Type} [Inhabited α] (batches : List (List (List α)))
    (indices : List ℕ) (hs : indices.Sorted (· ≤ ·))
    (hb : ∀ i ∈ indices, i < batches.flatten.length) :
    readWithTake batches indices =
      some (indices.map (fun i => batches.flatten.getD i default)) := by
  unfold readWithTake
  rw [runStream_take_sorted indices hs batches 0
    (by intro i hi; have := hb i hi; omega)]
  have hf : indices.filter (fun i => decide (0 ≤ i)) = indices :=
    List.filter_eq_self.mpr (fun x _ => by simp)
  rw [hf]
  refine congrArg _ (List.map_congr_left ?_)
  intro i hi
  simp

/-- Witness for claim C2 (amended) at a concrete file of two 4-row batches
with sorted, duplicated take indices. -/
theorem claimC2_witness :
    ([0, 2, 2, 5] : List ℕ).Sorted (· ≤ ·) ∧
    readWithTake [[[10], [11], [12], [13]], [[14], [15], [16], [17]]]
      [0, 2, 2, 5] = some [[10], [12], [12], [15]] := by
  refine ⟨by decide, ?_⟩
  have h := claimC2_amended [[[10], [11], [12], [13]], [[14], [15], [16], [17]]]
    [0, 2, 2, 5] (by decide) (by decide)
  rw [h]
  rfl

/-- Claim C3: on every decoded chunk batch the reader applies take first
(when take indices were supplied), then the row filter — the pointwise
logical AND of the result of every predicate, folded left-to-right over the
predicate list onto an all-true constant array — and projection last: the
emitted batch consists of exactly the taken rows at positions where every
predicate is true, each row projected by the column indices. -/
theorem claimC3 {α : Type} [Inhabited α] (takeIdx : Option (List ℕ)) (o : ℕ)
    (filters : List (List (List α) → List Bool)) (proj : Option (List ℕ))
    (s s1 : List (List α))
    (htake : (match takeIdx with
      | some idx => takeBatch idx o s
      | none => some s) = some s1)
    (hlen : ∀ f ∈ filters, (f s1).length = s1.length) :
    pollEmit takeIdx o filters proj s =
      some ((((List.range s1.length).filter
        (fun i => filters.all (fun f => (f s1).getD i false))).map
          (fun i => s1.getD i default)).map (applyProj proj)) := by
  have hmask : filters.foldl
      (fun acc f => acc.zipWith (fun x y => x && y) (f s1))
      (List.replicate s1.length true) =
      (List.range s1.length).map
        (fun i => filters.all (fun f => (f s1).getD i false)) := by
    rw [mask_foldl_eq s1 filters hlen (List.replicate s1.length true)
      (List.length_replicate _ _)]
    refine List.map_congr_left ?_
    intro i hi
    have hilt : i < s1.length := List.mem_range.mp hi
    have hrep : (List.replicate s1.length true).getD i false = true := by
      rw [List.getD_eq_getElem _ _ (by simpa using hilt)]
      exact List.getElem_replicate _ _
    rw [hrep, Bool.true_and]
  simp only [pollEmit, htake]
  rw [hmask, filterRows_map_range]

/-- Witness for claim C3 at a concrete batch with no take indices, two
pointwise predicates and projection to the first column: exactly the rows
passing both predicates survive, projected. -/
theorem claimC3_witness :
    pollEmit none 0
      [fun t => t.map (fun r => decide (r.getD 0 0 ≤ 2)),
        fun t => t.map (fun r => decide (2 ≤ r.getD 0 0))]
      (some [0]) [[1, 10], [2, 20], [3, 30]] =
      some ((((List.range ([[1, 10], [2, 20], [3, 30]] :
        List (List ℕ)).length).filter
          (fun i => ([fun t => t.map (fun r => decide (r.getD 0 0 ≤ 2)),
            fun t => t.map (fun r => decide (2 ≤ r.getD 0 0))] :
              List (List (List ℕ) → List Bool)).all
            (fun f => (f [[1, 10], [2, 20], [3, 30]]).getD i false))).map
          (fun i => ([[1, 10], [2, 20], [3, 30]] :
            List (List ℕ)).getD i default)).map (applyProj (some [0]))) ∧
    pollEmit none 0
      [fun t => t.map (fun r => decide (r.getD 0 0 ≤ 2)),
        fun t => t.map (fun r => decide (2 ≤ r.getD 0 0))]
      (some [0]) [[1, 10], [2, 20], [3, 30]] = some [[2]] := by
  constructor
  · refine claimC3 none 0 _ (some [0]) [[1, 10], [2, 20], [3, 30]]
      [[1, 10], [2, 20], [3, 30]] rfl ?_
    intro f hf
    rcases List.mem_cons.mp hf with rfl | hf2
    · simp
    · rcases List.mem_cons.mp hf2 with rfl | hf3
      · simp
      · cases hf3
  · rfl

end Vortex






